import Mathlib

/-!
Verification of the grid-fill scheduler and procedural audio synthesis core of
`rgb_grid_screensaver.py` (RGB Grid Screensaver).

The Python source is shallowly embedded below.  Machine integers are modelled
as `ℕ`/`ℤ`; the Python float computations of the synthesis and pitch-mapping
code are modelled over `ℚ` with exact arithmetic.  Python's `int()` conversion
(truncation toward zero) is `pyInt`, and Python's `round` (banker's rounding,
half to even) is `pyRound`.  Mutable list updates performed by `for` loops are
modelled as left folds over `List.range`, which preserves the sequential
update order of the source.
-/

/-- Python `int()` applied to a float/rational: truncation toward zero. -/
def pyInt (q : ℚ) : ℤ := if 0 ≤ q then ⌊q⌋ else ⌈q⌉

/-- Python `round()` on a rational: round half to even (banker's rounding). -/
def pyRound (q : ℚ) : ℤ :=
  if q - ⌊q⌋ < 1/2 then ⌊q⌋
  else if 1/2 < q - ⌊q⌋ then ⌊q⌋ + 1
  else if 2 ∣ ⌊q⌋ then ⌊q⌋ else ⌊q⌋ + 1

/-- An RGB triple, one `ℕ` in `[0,255]` per channel (source: 3-tuples of ints). -/
abbrev Color : Type := ℕ × ℕ × ℕ

/-- One lowercase hexadecimal digit, as produced by Python's `x` format code:
code point 48 + n for digits 0-9, code point 87 + n (so 97 = `a` at n = 10)
for digits 10-15. -/
def hex_digit (n : ℕ) : Char :=
  if n < 10 then Char.ofNat (48 + n) else Char.ofNat (87 + n)

/-- Two-digit lowercase hex rendering of a channel value (`f-string` `02x`). -/
def to_hex2 (n : ℕ) : String := String.mk [hex_digit (n / 16), hex_digit (n % 16)]

/-- `rgb_to_hex` (source lines 196-198): `#rrggbb` lowercase hex string. -/
def rgb_to_hex (r g b : ℕ) : String := "#" ++ to_hex2 r ++ to_hex2 g ++ to_hex2 b

/-- `color_to_midi_map` (source lines 40-45): the reserved static colors. -/
def color_to_midi_map (s : String) : Option ℤ :=
  if s = "#000000" then some 36
  else if s = "#0a0a0a" then some 38
  else if s = "#1a1a1a" then some 40
  else if s = "#ffffff" then some 60
  else none

/-- The per-channel offset `int((v / 255) * 12)` used by the generative
pitch mapping (source lines 87-89). -/
def channel_offset (v : ℕ) : ℤ := pyInt ((v : ℚ) / 255 * 12)

/-- `color_to_midi_note` (source lines 77-97), as invoked by `update_grid`:
the hex string is always derived from the RGB triple via `rgb_to_hex`. -/
def color_to_midi_note (r g b : ℕ) : ℤ :=
  match color_to_midi_map (rgb_to_hex r g b) with
  | some n => n
  | none =>
      let red_note : ℤ := 36 + channel_offset r
      let green_note : ℤ := 48 + channel_offset g
      let blue_note : ℤ := 60 + channel_offset b
      let avg_note : ℤ := pyRound (((red_note + green_note + blue_note : ℤ) : ℚ) / 3)
      max 36 (min 96 avg_note)

/-- `frames = int(duration * sample_rate)` (source line 101). -/
def generate_tone_frames (duration sample_rate : ℚ) : ℤ :=
  pyInt (duration * sample_rate)

/-- `max_sample = 2**(16 - 1) - 1` (source line 104). -/
def max_sample : ℤ := 2 ^ (16 - 1) - 1

/-- The amplitude envelope of `generate_tone` at frame `i` (source lines
110-115): linear fade-in over the first `sample_rate * 0.01` frames, linear
fade-out over the last ones, `1.0` in the steady middle. -/
def envelope (sample_rate frames i : ℕ) : ℚ :=
  let fade : ℚ := (sample_rate : ℚ) * (1/100)
  if (i : ℚ) < fade then (i : ℚ) / fade
  else if (i : ℚ) > (frames : ℚ) - fade then ((frames : ℚ) - (i : ℚ)) / fade
  else 1

/-- `sample = int(wave * max_sample * envelope * 0.3)` (source line 117),
parameterised by the sine-wave value `wave` of that frame. -/
def tone_sample (wave env : ℚ) : ℤ :=
  pyInt (wave * (max_sample : ℚ) * env * (3/10))

/-- The grid state of `RGBGridScreensaver`: column/row counts, the cell list
`grid_data`, and the write cursor `grid_index`. -/
structure GridState where
  grid_cols : ℕ
  grid_rows : ℕ
  grid_data : List (Option Color)
  grid_index : ℕ

/-- One iteration of the eviction loop `self.grid_data[i] = self.grid_data[i + 1]`
(source line 217). -/
def shift_step (d : List (Option Color)) (i : ℕ) : List (Option Color) :=
  d.set i (d.getD (i + 1) none)

/-- `update_grid` (source lines 200-221), with the freshly generated random
color passed in as `c`: if the grid is full, shift everything left and append
at the end; otherwise write at the cursor and advance it. -/
def update_grid (s : GridState) (c : Color) : GridState :=
  let total := s.grid_cols * s.grid_rows
  if s.grid_index ≥ total then
    { s with grid_data :=
        ((List.range (total - 1)).foldl shift_step s.grid_data).set (total - 1) (some c) }
  else
    { s with grid_data := s.grid_data.set s.grid_index (some c),
             grid_index := s.grid_index + 1 }

/-- One iteration of the resize copy loop `self.grid_data[i] = old_data[i]`
(source line 179). -/
def copy_step (src : List (Option Color)) (d : List (Option Color)) (i : ℕ) :
    List (Option Color) :=
  d.set i (src.getD i none)

/-- The grid-array portion of `update_grid_size` (source lines 169-186), with
the new dimensions passed in (the pixel-geometry computation that produces
them uses the display size and is not needed by any grid property): if the
capacity changed, reallocate, copy the old cells in index order up to the
smaller capacity, and clamp the cursor to the new capacity. -/
def update_grid_size (s : GridState) (cols rows : ℕ) : GridState :=
  let total := cols * rows
  if s.grid_data.length ≠ total then
    { grid_cols := cols, grid_rows := rows,
      grid_data :=
        (List.range (min s.grid_data.length total)).foldl (copy_step s.grid_data)
          (List.replicate total (none : Option Color)),
      grid_index := if s.grid_index ≥ total then total else s.grid_index }
  else
    { s with grid_cols := cols, grid_rows := rows }

/-- The grid fields as initialised in `__init__` (source lines 29-32), before
the initial `update_grid_size` call. -/
def initial_state : GridState :=
  { grid_cols := 0, grid_rows := 0, grid_data := [], grid_index := 0 }

/-- `self.update_interval = 500` milliseconds (source line 34). -/
def update_interval : ℤ := 500

/-- One tick of the run loop's scheduler (source lines 311-314): at time `t`,
if `t - last_update ≥ update_interval` then update the grid (with fresh
random color `c`) and set `last_update := t`; otherwise do nothing.  Returns
the new `last_update`, the new grid state, and whether the update fired. -/
def run_tick (last : ℤ) (s : GridState) (t : ℤ) (c : Color) : ℤ × GridState × Bool :=
  if t - last ≥ update_interval then (t, update_grid s c, true) else (last, s, false)

/-- Folding `run_tick` over a list of (tick time, random color) pairs. -/
def run_ticks (st : ℤ × GridState) (ts : List (ℤ × Color)) : ℤ × GridState :=
  ts.foldl (fun st tc =>
    ((run_tick st.1 st.2 tc.1 tc.2).1, (run_tick st.1 st.2 tc.1 tc.2).2.1)) st

/-- The grid-store invariant: the cell list has length `cols * rows` and the
write cursor lies in `[0, cols * rows]`. -/
def grid_inv (s : GridState) : Prop :=
  s.grid_data.length = s.grid_cols * s.grid_rows ∧
  s.grid_index ≤ s.grid_cols * s.grid_rows

instance : DecidablePred grid_inv := fun s => by unfold grid_inv; infer_instance

/-! ### Basic lemmas about the embedding -/

lemma pyInt_of_nonneg {q : ℚ} (h : 0 ≤ q) : pyInt q = ⌊q⌋ := by
  simp [pyInt, h]

lemma pyInt_le_9830 {q : ℚ} (h : q ≤ 98301/10) : pyInt q ≤ 9830 := by
  unfold pyInt
  split_ifs with h0
  · calc ⌊q⌋ ≤ ⌊(98301:ℚ)/10⌋ := Int.floor_mono h
      _ = 9830 := by norm_num
  · have hq : q ≤ 0 := le_of_lt (not_le.mp h0)
    exact Int.ceil_le.mpr (le_trans hq (by norm_num))

lemma pyInt_ge_neg9830 {q : ℚ} (h : -(98301/10) ≤ q) : -9830 ≤ pyInt q := by
  unfold pyInt
  split_ifs with h0
  · exact le_trans (by norm_num) (Int.floor_nonneg.mpr h0)
  · exact Int.le_ceil_iff.mpr (by push_cast; linarith)

lemma color_to_midi_map_mem {s : String} {n : ℤ} (h : color_to_midi_map s = some n) :
    n = 36 ∨ n = 38 ∨ n = 40 ∨ n = 60 := by
  unfold color_to_midi_map at h
  split_ifs at h <;> simp_all

lemma shift_foldl_length (d : List (Option Color)) (k : ℕ) :
    ((List.range k).foldl shift_step d).length = d.length := by
  induction k with
  | zero => rfl
  | succ k ih =>
      rw [List.range_succ, List.foldl_append, List.foldl_cons, List.foldl_nil,
        shift_step, List.length_set, ih]

lemma shift_foldl_getD (d : List (Option Color)) (k j : ℕ) :
    ((List.range k).foldl shift_step d).getD j none =
      if j < k then d.getD (j + 1) none else d.getD j none := by
  induction k generalizing j with
  | zero => simp
  | succ k ih =>
      rw [List.range_succ, List.foldl_append, List.foldl_cons, List.foldl_nil, shift_step,
        List.getD_eq_getElem?_getD, List.getElem?_set]
      by_cases hjk : k = j
      · subst hjk
        rw [if_pos rfl]
        by_cases hlen : k < ((List.range k).foldl shift_step d).length
        · rw [if_pos hlen, Option.getD_some, ih (k + 1), if_neg (by omega), if_pos (by omega)]
        · rw [if_neg hlen, Option.getD_none, if_pos (by omega)]
          rw [shift_foldl_length] at hlen
          rw [List.getD_eq_default _ _ (by omega)]
      · rw [if_neg hjk, ← List.getD_eq_getElem?_getD, ih j]
        by_cases hj : j < k
        · rw [if_pos hj, if_pos (by omega)]
        · rw [if_neg hj, if_neg (by omega)]

lemma copy_foldl_length (src base : List (Option Color)) (k : ℕ) :
    ((List.range k).foldl (copy_step src) base).length = base.length := by
  induction k with
  | zero => rfl
  | succ k ih =>
      rw [List.range_succ, List.foldl_append, List.foldl_cons, List.foldl_nil,
        copy_step, List.length_set, ih]

lemma copy_foldl_getD (src base : List (Option Color)) (k j : ℕ) (hk : k ≤ base.length) :
    ((List.range k).foldl (copy_step src) base).getD j none =
      if j < k then src.getD j none else base.getD j none := by
  induction k generalizing j with
  | zero => simp
  | succ k ih =>
      rw [List.range_succ, List.foldl_append, List.foldl_cons, List.foldl_nil, copy_step,
        List.getD_eq_getElem?_getD, List.getElem?_set]
      have hk' : k ≤ base.length := by omega
      by_cases hjk : k = j
      · subst hjk
        rw [if_pos rfl, if_pos (by rw [copy_foldl_length]; omega), Option.getD_some,
          if_pos (by omega)]
      · rw [if_neg hjk, ← List.getD_eq_getElem?_getD, ih j hk']
        by_cases hj : j < k
        · rw [if_pos hj, if_pos (by omega)]
        · rw [if_neg hj, if_neg (by omega)]

/-! ### Claim theorems -/

/-- C5: if the input color exactly equals one of the four reserved colors —
pure black (0,0,0), near-black grays (10,10,10) and (26,26,26), or pure white
(255,255,255) — then the note mapping returns the fixed reserved note 36, 38,
40, or 60 respectively, bypassing the generative averaging formula. -/
theorem claim_C5_reserved_colors :
    color_to_midi_note 0 0 0 = 36 ∧
    color_to_midi_note 10 10 10 = 38 ∧
    color_to_midi_note 26 26 26 = 40 ∧
    color_to_midi_note 255 255 255 = 60 := by
  refine ⟨?_, ?_, ?_, ?_⟩ <;> decide

/-- C4: for every RGB triple with each channel in [0,255], the note mapping
`color_to_midi_note` returns an integer in [36,96] inclusive. -/
theorem claim_C4_note_range (r g b : ℕ) (hr : r ≤ 255) (hg : g ≤ 255) (hb : b ≤ 255) :
    36 ≤ color_to_midi_note r g b ∧ color_to_midi_note r g b ≤ 96 := by
  unfold color_to_midi_note
  cases hmap : color_to_midi_map (rgb_to_hex r g b) with
  | some n =>
      rcases color_to_midi_map_mem hmap with h | h | h | h <;> subst h <;>
        exact ⟨by norm_num, by norm_num⟩
  | none =>
      refine ⟨le_max_left _ _, max_le (by norm_num) (min_le_left _ _)⟩

theorem claim_C4_witness :
    36 ≤ color_to_midi_note 1 2 3 ∧ color_to_midi_note 1 2 3 ≤ 96 :=
  claim_C4_note_range 1 2 3 (by decide) (by decide) (by decide)

/-- C3 counterexample: at channel value v = 255 the generative per-channel
offset `int((v / 255) * 12)` equals 12, so it is not strictly less than 12. -/
theorem claim_C3_counterexample :
    channel_offset 255 = 12 ∧ ¬ channel_offset 255 < 12 := by
  have h : channel_offset 255 = 12 := by
    rw [channel_offset, pyInt_of_nonneg (by positivity)]
    norm_num
  exact ⟨h, by rw [h]; omega⟩

/-- C3 (amended): for every channel value v in [0,255] the per-channel offset
`int((v / 255) * 12)` lies in the closed range [0,12], and it equals the upper
bound 12 exactly when v = 255. -/
theorem claim_C3_offset_range (v : ℕ) (hv : v ≤ 255) :
    0 ≤ channel_offset v ∧ channel_offset v ≤ 12 ∧
      (channel_offset v = 12 ↔ v = 255) := by
  have hq0 : (0 : ℚ) ≤ (v : ℚ) / 255 * 12 := by positivity
  rw [channel_offset, pyInt_of_nonneg hq0]
  have hvq : (v : ℚ) ≤ 255 := by exact_mod_cast hv
  have hqle : (v : ℚ) / 255 * 12 ≤ 12 := by
    rw [div_mul_eq_mul_div, div_le_iff (by norm_num : (0:ℚ) < 255)]
    nlinarith
  refine ⟨Int.floor_nonneg.mpr hq0, ?_, ?_, ?_⟩
  · calc ⌊(v : ℚ) / 255 * 12⌋ ≤ ⌊(12 : ℚ)⌋ := Int.floor_mono hqle
      _ = 12 := by norm_num
  · intro h12
    have h1 : ((12 : ℤ) : ℚ) ≤ (v : ℚ) / 255 * 12 := Int.le_floor.mp (le_of_eq h12.symm)
    have h2 : (255 : ℚ) ≤ (v : ℚ) := by
      rw [div_mul_eq_mul_div, le_div_iff (by norm_num : (0:ℚ) < 255)] at h1
      push_cast at h1
      nlinarith
    have h3 : 255 ≤ v := by exact_mod_cast h2
    omega
  · rintro rfl
    norm_num

theorem claim_C3_witness :
    0 ≤ channel_offset 100 ∧ channel_offset 100 ≤ 12 ∧
      (channel_offset 100 = 12 ↔ 100 = 255) :=
  claim_C3_offset_range 100 (by decide)

/-- C2 counterexample: at duration 9/10 and sample rate 1 the synthesized
frame count `int(duration * sample_rate)` is 0, while round-to-nearest of
`duration * sample_rate` is 1, so the frame count is not round(d * r). -/
theorem claim_C2_counterexample :
    generate_tone_frames (9/10) 1 = 0 ∧ round ((9/10 : ℚ) * 1) = 1 ∧
      generate_tone_frames (9/10) 1 ≠ round ((9/10 : ℚ) * 1) := by
  have h1 : generate_tone_frames (9/10) 1 = 0 := by
    rw [generate_tone_frames, pyInt_of_nonneg (by norm_num)]
    norm_num
  have h2 : round ((9/10 : ℚ) * 1) = 1 := by
    norm_num [round_eq]
  exact ⟨h1, h2, by rw [h1, h2]; omega⟩

/-- C2 (amended): for nonnegative duration d and sample rate r, the tone
synthesis produces exactly ⌊d * r⌋ frames — `int()` truncation of d * r, not
round-to-nearest — so the frame count is within 1 below d * r. -/
theorem claim_C2_frames_floor (duration sample_rate : ℚ)
    (hd : 0 ≤ duration) (hr : 0 ≤ sample_rate) :
    generate_tone_frames duration sample_rate = ⌊duration * sample_rate⌋ ∧
    (generate_tone_frames duration sample_rate : ℚ) ≤ duration * sample_rate ∧
    duration * sample_rate - 1 < (generate_tone_frames duration sample_rate : ℚ) := by
  have h : generate_tone_frames duration sample_rate = ⌊duration * sample_rate⌋ := by
    rw [generate_tone_frames, pyInt_of_nonneg (mul_nonneg hd hr)]
  refine ⟨h, ?_, ?_⟩
  · rw [h]; exact Int.floor_le _
  · rw [h]; exact Int.sub_one_lt_floor _

theorem claim_C2_witness :
    generate_tone_frames 2 3 = ⌊(2 : ℚ) * 3⌋ ∧
    (generate_tone_frames 2 3 : ℚ) ≤ (2 : ℚ) * 3 ∧
    (2 : ℚ) * 3 - 1 < (generate_tone_frames 2 3 : ℚ) :=
  claim_C2_frames_floor 2 3 (by decide) (by decide)

/-- C1: for a grid of capacity N = cols * rows whose cursor equals N, one
`update_grid` call with new color c shifts cells left (new cell i equals old
cell i+1 for i < N-1, discarding old cell 0), writes c at index N-1, and
leaves the cursor unchanged at N. -/
theorem claim_C1_full_grid_shift (s : GridState) (c : Color) (N : ℕ)
    (hN : N = s.grid_cols * s.grid_rows) (hlen : s.grid_data.length = N)
    (hidx : s.grid_index = N) (hpos : 0 < N) :
    (∀ i, i < N - 1 →
      (update_grid s c).grid_data.getD i none = s.grid_data.getD (i + 1) none) ∧
    (update_grid s c).grid_data.getD (N - 1) none = some c ∧
    (update_grid s c).grid_index = N := by
  have hfull : s.grid_index ≥ s.grid_cols * s.grid_rows := by omega
  rw [update_grid]
  simp only [ge_iff_le, if_pos hfull]
  rw [← hN]
  have hflen : ((List.range (N - 1)).foldl shift_step s.grid_data).length = N := by
    rw [shift_foldl_length, hlen]
  refine ⟨?_, ?_, ?_⟩
  · intro i hi
    rw [List.getD_eq_getElem?_getD, List.getElem?_set, if_neg (by omega),
      ← List.getD_eq_getElem?_getD, shift_foldl_getD, if_pos hi]
  · rw [List.getD_eq_getElem?_getD, List.getElem?_set, if_pos rfl,
      if_pos (by omega), Option.getD_some]
  · exact hidx

/-- A concrete full 2-cell grid used to instantiate grid theorems. -/
def grid_two : GridState :=
  { grid_cols := 2, grid_rows := 1,
    grid_data := [some (1, 1, 1), some (2, 2, 2)], grid_index := 2 }

theorem claim_C1_witness :
    (update_grid grid_two (7, 7, 7)).grid_data.getD 0 none =
        grid_two.grid_data.getD 1 none ∧
    (update_grid grid_two (7, 7, 7)).grid_data.getD 1 none = some (7, 7, 7) ∧
    (update_grid grid_two (7, 7, 7)).grid_index = 2 :=
  ⟨(claim_C1_full_grid_shift grid_two (7, 7, 7) 2 rfl rfl rfl (by decide)).1 0 (by decide),
   (claim_C1_full_grid_shift grid_two (7, 7, 7) 2 rfl rfl rfl (by decide)).2.1,
   (claim_C1_full_grid_shift grid_two (7, 7, 7) 2 rfl rfl rfl (by decide)).2.2⟩

/-- C6: for every resize from old capacity A = |grid_data| to new capacity
B = cols * rows, the first min(A,B) original cells are preserved at their
original indices (so for B > A all A cells, for B < A the first B cells), the
cursor afterwards equals min(old cursor, B), and the new length is B. -/
theorem claim_C6_resize_preserves (s : GridState) (cols rows : ℕ)
    (hidx : s.grid_index ≤ s.grid_data.length) :
    (∀ i, i < min s.grid_data.length (cols * rows) →
      (update_grid_size s cols rows).grid_data.getD i none = s.grid_data.getD i none) ∧
    (update_grid_size s cols rows).grid_index = min s.grid_index (cols * rows) ∧
    (update_grid_size s cols rows).grid_data.length = cols * rows := by
  rw [update_grid_size]
  by_cases hne : s.grid_data.length ≠ cols * rows
  · simp only [if_pos hne]
    refine ⟨?_, ?_, ?_⟩
    · intro i hi
      rw [copy_foldl_getD _ _ _ _ (by rw [List.length_replicate]; omega), if_pos hi]
    · by_cases hge : s.grid_index ≥ cols * rows
      · simp only [ge_iff_le, if_pos hge]; omega
      · simp only [ge_iff_le, if_neg hge]; omega
    · rw [copy_foldl_length, List.length_replicate]
  · simp only [if_neg hne]
    push_neg at hne
    exact ⟨fun i _ => trivial, by omega, hne⟩

theorem claim_C6_witness :
    (∀ i, i < min grid_two.grid_data.length (1 * 1) →
      (update_grid_size grid_two 1 1).grid_data.getD i none =
        grid_two.grid_data.getD i none) ∧
    (update_grid_size grid_two 1 1).grid_index = min grid_two.grid_index (1 * 1) ∧
    (update_grid_size grid_two 1 1).grid_data.length = 1 * 1 :=
  claim_C6_resize_preserves grid_two 1 1 (by decide)

/-- States reachable from the initial grid fields via the two mutating
operations of the source. -/
inductive Reachable : GridState → Prop
  | init : Reachable initial_state
  | step_update {s : GridState} (c : Color) : Reachable s → Reachable (update_grid s c)
  | step_resize {s : GridState} (cols rows : ℕ) :
      Reachable s → Reachable (update_grid_size s cols rows)

lemma grid_inv_update (s : GridState) (c : Color) (hs : grid_inv s) :
    grid_inv (update_grid s c) := by
  obtain ⟨hlen, hidx⟩ := hs
  rw [update_grid]
  by_cases hge : s.grid_index ≥ s.grid_cols * s.grid_rows
  · simp only [ge_iff_le, if_pos hge]
    exact ⟨by rw [List.length_set, shift_foldl_length, hlen], hidx⟩
  · simp only [ge_iff_le, if_neg hge]
    exact ⟨by rw [List.length_set, hlen],
      show s.grid_index + 1 ≤ s.grid_cols * s.grid_rows by omega⟩

lemma grid_inv_resize (s : GridState) (cols rows : ℕ) (hs : grid_inv s) :
    grid_inv (update_grid_size s cols rows) := by
  obtain ⟨hlen, hidx⟩ := hs
  rw [update_grid_size]
  by_cases hne : s.grid_data.length ≠ cols * rows
  · simp only [if_pos hne]
    refine ⟨by rw [copy_foldl_length, List.length_replicate], ?_⟩
    by_cases hge : s.grid_index ≥ cols * rows
    · simp only [ge_iff_le, if_pos hge]
      exact le_rfl
    · simp only [ge_iff_le, if_neg hge]
      exact show s.grid_index ≤ cols * rows by omega
  · push_neg at hne
    simp only [if_neg (by omega : ¬ s.grid_data.length ≠ cols * rows)]
    exact ⟨hne, show s.grid_index ≤ cols * rows by omega⟩

/-- C9: the grid-store invariant — `grid_data` has length `cols * rows` and
`0 ≤ grid_index ≤ cols * rows` — holds initially, is preserved by
`update_grid` and by `update_grid_size`, and therefore holds in every
reachable state. -/
theorem claim_C9_grid_invariant :
    grid_inv initial_state ∧
    (∀ s c, grid_inv s → grid_inv (update_grid s c)) ∧
    (∀ s cols rows, grid_inv s → grid_inv (update_grid_size s cols rows)) ∧
    (∀ s, Reachable s → grid_inv s) := by
  refine ⟨⟨rfl, le_refl 0⟩, grid_inv_update, grid_inv_resize, ?_⟩
  intro s hs
  induction hs with
  | init => exact ⟨rfl, le_refl 0⟩
  | step_update c _ ih => exact grid_inv_update _ c ih
  | step_resize cols rows _ ih => exact grid_inv_resize _ cols rows ih

theorem claim_C9_witness : grid_inv (update_grid initial_state (3, 4, 5)) :=
  claim_C9_grid_invariant.2.1 initial_state (3, 4, 5) (by decide)

lemma run_ticks_last_fixed (t : ℤ) (g : GridState) (ts : List (ℤ × Color))
    (h : ∀ p ∈ ts, p.1 - t < update_interval) : (run_ticks (t, g) ts).1 = t := by
  induction ts generalizing g with
  | nil => rfl
  | cons p ts ih =>
      rw [run_ticks, List.foldl_cons]
      have hp : ¬ p.1 - t ≥ update_interval := by
        have := h p (List.mem_cons_self p ts)
        omega
      rw [show run_tick t g p.1 p.2 = (t, g, false) from by rw [run_tick, if_neg hp]]
      exact ih g (fun q hq => h q (List.mem_cons_of_mem p hq))

/-- C7: on a run-loop tick at time t, the grid update fires iff
t - last_update ≥ 500 ms; when it fires, last_update becomes t and the grid
advances; otherwise last_update and the grid are unchanged.  Consequently,
after a firing tick at time t, any later tick that fires after a run of
non-firing ticks is at a time t2 with t2 - t ≥ 500. -/
theorem claim_C7_scheduler (last : ℤ) (s : GridState) (t : ℤ) (c : Color) :
    ((run_tick last s t c).2.2 = true ↔ t - last ≥ update_interval) ∧
    (t - last ≥ update_interval →
      (run_tick last s t c).1 = t ∧ (run_tick last s t c).2.1 = update_grid s c) ∧
    (¬ t - last ≥ update_interval →
      (run_tick last s t c).1 = last ∧ (run_tick last s t c).2.1 = s) ∧
    (∀ (ts : List (ℤ × Color)) (t2 : ℤ) (c2 : Color),
      t - last ≥ update_interval →
      (∀ p ∈ ts, p.1 - t < update_interval) →
      (run_tick (run_ticks (t, update_grid s c) ts).1
        (run_ticks (t, update_grid s c) ts).2 t2 c2).2.2 = true →
      t2 - t ≥ update_interval) := by
  refine ⟨?_, ?_, ?_, ?_⟩
  · by_cases h : t - last ≥ update_interval
    · rw [run_tick, if_pos h]
      exact ⟨fun _ => h, fun _ => rfl⟩
    · rw [run_tick, if_neg h]
      exact ⟨fun hfalse => absurd hfalse (by simp), fun hcond => absurd hcond h⟩
  · intro h
    rw [run_tick, if_pos h]
    exact ⟨rfl, rfl⟩
  · intro h
    rw [run_tick, if_neg h]
    exact ⟨rfl, rfl⟩
  · intro ts t2 c2 _ hts htrig
    rw [run_ticks_last_fixed t (update_grid s c) ts hts] at htrig
    rw [run_tick] at htrig
    by_cases h2 : t2 - t ≥ update_interval
    · exact h2
    · rw [if_neg h2] at htrig
      exact absurd htrig (by simp)

theorem claim_C7_witness :
    (run_tick 0 grid_two 600 (1, 2, 3)).2.2 = true ∧
    (run_tick 0 grid_two 600 (1, 2, 3)).1 = 600 ∧
    (run_tick 0 grid_two 600 (1, 2, 3)).2.1 = update_grid grid_two (1, 2, 3) ∧
    (1200 : ℤ) - 600 ≥ update_interval :=
  ⟨(claim_C7_scheduler 0 grid_two 600 (1, 2, 3)).1.mpr (by decide),
   ((claim_C7_scheduler 0 grid_two 600 (1, 2, 3)).2.1 (by decide)).1,
   ((claim_C7_scheduler 0 grid_two 600 (1, 2, 3)).2.1 (by decide)).2,
   (claim_C7_scheduler 0 grid_two 600 (1, 2, 3)).2.2.2 [(700, (4, 5, 6))] 1200 (8, 8, 8)
     (by decide) (by decide) (by decide)⟩

lemma fadein_iff (r i : ℕ) : ((i : ℚ) < (r : ℚ) * (1/100)) ↔ 100 * i < r := by
  rw [mul_one_div, lt_div_iff (by norm_num : (0:ℚ) < 100),
    show (i : ℚ) * 100 = ((100 * i : ℕ) : ℚ) by push_cast; ring]
  exact Nat.cast_lt

lemma fadeout_iff (r F i : ℕ) :
    ((F : ℚ) - (r : ℚ) * (1/100) < (i : ℚ)) ↔ 100 * F < 100 * i + r := by
  constructor
  · intro h
    have h' : ((100 * F : ℕ) : ℚ) < ((100 * i + r : ℕ) : ℚ) := by push_cast; nlinarith
    exact_mod_cast h'
  · intro h
    have h' : ((100 * F : ℕ) : ℚ) < ((100 * i + r : ℕ) : ℚ) := by exact_mod_cast h
    push_cast at h'
    nlinarith

lemma envelope_eq_fadein (r F i : ℕ) (h : 100 * i < r) :
    envelope r F i = (i : ℚ) / ((r : ℚ) * (1/100)) := by
  simp only [envelope]
  rw [if_pos ((fadein_iff r i).mpr h)]

lemma envelope_eq_fadeout (r F i : ℕ) (hni : ¬ 100 * i < r) (h : 100 * F < 100 * i + r) :
    envelope r F i = ((F : ℚ) - (i : ℚ)) / ((r : ℚ) * (1/100)) := by
  simp only [envelope]
  rw [if_neg (fun hc => hni ((fadein_iff r i).mp hc)),
    if_pos ((fadeout_iff r F i).mpr h)]

lemma envelope_eq_one (r F i : ℕ) (hni : ¬ 100 * i < r) (hno : ¬ 100 * F < 100 * i + r) :
    envelope r F i = 1 := by
  simp only [envelope]
  rw [if_neg (fun hc => hni ((fadein_iff r i).mp hc)),
    if_neg (fun hc => hno ((fadeout_iff r F i).mp hc))]

/-- C8: with fade window w = 0.01 * r (in frames) and non-degenerate sizes
(r > 0 and 2w ≤ F): a frame i in the fade-in window (i < w, stated as
100i < r) has envelope i / w; a frame in the fade-out window (i ≥ F - w,
stated as 100F ≤ 100i + r, with i < F) has envelope (F - i) / w; a steady
middle frame (w ≤ i and i + w ≤ F) has envelope 1; the envelope strictly
increases across the fade-in window and strictly decreases across the
fade-out window. -/
theorem claim_C8_envelope (r F : ℕ) (hr : 0 < r) (hF : 2 * r ≤ 100 * F) :
    (∀ i, 100 * i < r → envelope r F i = (i : ℚ) / ((r : ℚ) * (1/100))) ∧
    (∀ i, 100 * F ≤ 100 * i + r → i < F →
      envelope r F i = ((F : ℚ) - (i : ℚ)) / ((r : ℚ) * (1/100))) ∧
    (∀ i, r ≤ 100 * i → 100 * i + r ≤ 100 * F → envelope r F i = 1) ∧
    (∀ i j, i < j → 100 * j < r → envelope r F i < envelope r F j) ∧
    (∀ i j, 100 * F ≤ 100 * i + r → i < j → j < F →
      envelope r F j < envelope r F i) := by
  have hrq : (0:ℚ) < (r : ℚ) := by exact_mod_cast hr
  have hw : (0:ℚ) < (r : ℚ) * (1/100) := by nlinarith
  have e2 : ∀ i, 100 * F ≤ 100 * i + r → i < F →
      envelope r F i = ((F : ℚ) - (i : ℚ)) / ((r : ℚ) * (1/100)) := by
    intro i hge hiF
    by_cases hstrict : 100 * F < 100 * i + r
    · exact envelope_eq_fadeout r F i (by omega) hstrict
    · have heq : 100 * F = 100 * i + r := by omega
      rw [envelope_eq_one r F i (by omega) hstrict]
      have hcast : ((100 * F : ℕ) : ℚ) = ((100 * i + r : ℕ) : ℚ) := by exact_mod_cast heq
      push_cast at hcast
      rw [show ((F : ℚ) - (i : ℚ)) = (r : ℚ) * (1/100) by linarith,
        div_self (ne_of_gt hw)]
  refine ⟨fun i hi => envelope_eq_fadein r F i hi, e2,
    fun i h1 h2 => envelope_eq_one r F i (by omega) (by omega), ?_, ?_⟩
  · intro i j hij hj
    rw [envelope_eq_fadein r F i (by omega), envelope_eq_fadein r F j hj]
    exact (div_lt_div_right hw).mpr (by exact_mod_cast hij)
  · intro i j hi hij hjF
    rw [e2 i hi (by omega), e2 j (by omega) hjF]
    have : (i : ℚ) < (j : ℚ) := by exact_mod_cast hij
    exact (div_lt_div_right hw).mpr (by linarith)

theorem claim_C8_witness :
    envelope 200 8 1 = (1 : ℚ) / ((200 : ℚ) * (1/100)) ∧
    envelope 200 8 7 = ((8 : ℚ) - (7 : ℚ)) / ((200 : ℚ) * (1/100)) ∧
    envelope 200 8 4 = 1 ∧
    envelope 200 8 0 < envelope 200 8 1 ∧
    envelope 200 8 7 < envelope 200 8 6 :=
  ⟨(claim_C8_envelope 200 8 (by decide) (by decide)).1 1 (by decide),
   (claim_C8_envelope 200 8 (by decide) (by decide)).2.1 7 (by decide) (by decide),
   (claim_C8_envelope 200 8 (by decide) (by decide)).2.2.1 4 (by decide) (by decide),
   (claim_C8_envelope 200 8 (by decide) (by decide)).2.2.2.1 0 1 (by decide) (by decide),
   (claim_C8_envelope 200 8 (by decide) (by decide)).2.2.2.2 6 7 (by decide) (by decide)
     (by decide)⟩

lemma envelope_mem (r F i : ℕ) (hiF : i < F) :
    0 ≤ envelope r F i ∧ envelope r F i ≤ 1 := by
  simp only [envelope]
  split_ifs with h1 h2
  · have hw : (0:ℚ) < (r : ℚ) * (1/100) := lt_of_le_of_lt (Nat.cast_nonneg i) h1
    exact ⟨div_nonneg (Nat.cast_nonneg i) hw.le, (div_le_one hw).mpr h1.le⟩
  · have hFi : (0:ℚ) < (F : ℚ) - (i : ℚ) := by
      have : (i : ℚ) < (F : ℚ) := by exact_mod_cast hiF
      linarith
    have hw : (0:ℚ) < (r : ℚ) * (1/100) := by
      have hgt : (F : ℚ) - (r : ℚ) * (1/100) < (i : ℚ) := h2
      have hiF' : (i : ℚ) < (F : ℚ) := by exact_mod_cast hiF
      linarith
    refine ⟨div_nonneg hFi.le hw.le, (div_le_one hw).mpr ?_⟩
    have hgt : (F : ℚ) - (r : ℚ) * (1/100) < (i : ℚ) := h2
    linarith
  · norm_num

/-- C10 (implicit): every sample value written into the tone buffer has
absolute value at most 0.3 * (2^15 - 1), i.e. at most 9830: the sine value is
in [-1,1], the envelope is in [0,1], and the 0.3 gain is applied, so the
int16 conversion never overflows. -/
theorem claim_C10_sample_bound (wave : ℚ) (r F i : ℕ)
    (hw1 : -1 ≤ wave) (hw2 : wave ≤ 1) (hiF : i < F) :
    -9830 ≤ tone_sample wave (envelope r F i) ∧
      tone_sample wave (envelope r F i) ≤ 9830 := by
  obtain ⟨he0, he1⟩ := envelope_mem r F i hiF
  rw [tone_sample]
  have hms : ((max_sample : ℤ) : ℚ) = 32767 := by norm_num [max_sample]
  rw [hms]
  have hu : wave * 32767 * envelope r F i * (3/10) ≤ 98301/10 := by nlinarith
  have hl : -(98301/10) ≤ wave * 32767 * envelope r F i * (3/10) := by nlinarith
  exact ⟨pyInt_ge_neg9830 hl, pyInt_le_9830 hu⟩

theorem claim_C10_witness :
    -9830 ≤ tone_sample 1 (envelope 100 2 0) ∧
      tone_sample 1 (envelope 100 2 0) ≤ 9830 :=
  claim_C10_sample_bound 1 100 2 0 (by decide) (by decide) (by decide)
